import Mathlib

-- Verification of the cryptodev session table and vectored crypto execution
-- engine (src/cryptodev.c) against its natural-language specification.
-- The C code is shallowly embedded: machine integers become Nat/Int, user
-- buffers become List Nat, the CryptoAPI transform provider becomes records
-- of (possibly failing) functions, and the staging-buffer / goto control
-- flow of crypto_runv is made explicit.

namespace Cryptodev

-- Operation codes. cryptodev.h is not part of the provided source; the
-- compile-time assertion in cryptodev.c (line 82) requires COP_ENCRYPT < 2
-- and COP_DECRYPT < 2 because they index csession.stat[2], so they are the
-- two distinct values 0 and 1.
def COP_ENCRYPT : Nat := 0

def COP_DECRYPT : Nat := 1

-- Per-segment flag bits of crypt_iovec.op_flags (values from cryptodev.h,
-- absent from src/; only their distinctness as bitmask bits matters).
def IOP_CIPHER : Nat := 1

def IOP_HASH : Nat := 2

-- The staging buffer is one page (__get_free_page).
def PAGE_SIZE : Nat := 4096

-- errno values; the C code returns their negations.
def EINVAL : Int := 22

def ENOMEM : Int := 12

def ENOENT : Int := 2

-- Algorithm identifiers from cryptodev.h (absent from src/); the switch
-- statements in crypto_create_session only compare them for equality, so
-- any distinct nonzero values model them faithfully.
def CRYPTO_DES_CBC : Nat := 1

def CRYPTO_3DES_CBC : Nat := 2

def CRYPTO_BLF_CBC : Nat := 3

def CRYPTO_AES_CBC : Nat := 4

def CRYPTO_CAMELLIA_CBC : Nat := 5

def CRYPTO_MD5_HMAC : Nat := 6

def CRYPTO_RIPEMD160_HMAC : Nat := 7

def CRYPTO_SHA1_HMAC : Nat := 8

def CRYPTO_SHA2_256_HMAC : Nat := 9

def CRYPTO_SHA2_384_HMAC : Nat := 10

def CRYPTO_SHA2_512_HMAC : Nat := 11

def CRYPTO_MD5 : Nat := 12

def CRYPTO_RIPEMD160 : Nat := 13

def CRYPTO_SHA1 : Nat := 14

def CRYPTO_SHA2_256 : Nat := 15

def CRYPTO_SHA2_384 : Nat := 16

def CRYPTO_SHA2_512 : Nat := 17

-- Fixed key-buffer bounds from cryptodev.h.
def CRYPTO_CIPHER_MAX_KEY_LEN : Nat := 64

def CRYPTO_HMAC_MAX_KEY_LEN : Nat := 512

-- A struct crypto_blkcipher handle: block size, IV size, the internal IV
-- state, and the in-place encrypt/decrypt operations.  Each operation takes
-- the current IV state and the staged chunk and returns the CryptoAPI return
-- code together with the new IV state and the transformed chunk.
structure BlkCipherTfm where
  blocksize : Nat
  ivsize : Nat
  iv : List Nat
  enc : List Nat → List Nat → Int × List Nat × List Nat
  dec : List Nat → List Nat → Int × List Nat × List Nat

-- A struct crypto_hash handle: digest size, the return codes of
-- crypto_hash_init / crypto_hash_update / crypto_hash_final, and the digest
-- function applied at finalization to the whole byte stream fed via update.
structure HashTfm where
  digestsize : Nat
  initRet : Int
  updRet : List Nat → Int
  finalRet : Int
  digest : List Nat → List Nat
  digest_len : ∀ input, (digest input).length = digestsize

-- The stat fields of struct csession.
structure Stats where
  statEnc : Nat
  statDec : Nat
  stat_max_size : Nat
  stat_count : Nat

-- struct csession (the list_head and semaphore are not data).
structure Csession where
  sid : Nat
  tfm : Option BlkCipherTfm
  hash_tfm : Option HashTfm
  stat : Stats

-- struct crypt_iovec: one segment of a vectored request.
structure Iovec where
  src : List Nat
  len : Nat
  op_flags : Nat

-- struct crypt_opv: a vectored request (dst and mac are output pointers and
-- are modeled as fields of the result instead).
structure CryptOpv where
  op : Nat
  ses : Nat
  iv : Option (List Nat)
  iovec : List Iovec

-- ===== crypto_get_session_by_sid (cryptodev.c lines 386-402) =====

-- Result of the lookup scan.  `list_for_each_entry` terminates with the
-- cursor equal to `container_of(&fcr->list, struct csession, entry)` when no
-- entry matched -- a pointer into struct fcrypt, not NULL -- and equal to the
-- matching entry otherwise.
inductive SidLookup where
  | found (s : Csession)
  | headSentinel

-- crypto_get_session_by_sid: scan the table for the first session with the
-- given sid (locking it when found); when no session matches, the returned
-- pointer is the head sentinel described above.
def crypto_get_session_by_sid (fcr : List Csession) (sid : Nat) : SidLookup :=
  match fcr.find? (fun s => s.sid == sid) with
  | some s => .found s
  | none => .headSentinel

-- Whether the pointer returned by crypto_get_session_by_sid is NULL, as
-- tested by `if (!ses_ptr)` in crypto_runv (line 429).  A found entry is a
-- valid session pointer, and the not-found sentinel is the non-NULL address
-- container_of(&fcr->list, struct csession, entry); so the test is false in
-- both cases.
def lookupIsNull : SidLookup → Bool := fun _ => false

-- ===== crypto_finish_session (cryptodev.c lines 341-365) =====

-- The list_for_each_entry_safe loop with `break` on the first sid match:
-- deletes only the first matching session.
def finish_scan : List Csession → Nat → List Csession
  | [], _ => []
  | s :: rest, sid => if s.sid = sid then rest else s :: finish_scan rest sid

-- Whether `ses_ptr` is NULL after the deletion scan, as tested by
-- `if (!ses_ptr)` (line 358).  After list_for_each_entry_safe the cursor is
-- either the matched (freed) entry or container_of(&fcr->list, struct
-- csession, entry); neither is NULL, so the test is false for every table
-- and every sid and the `ret = -ENOENT` assignment is dead code.
def finish_ses_ptr_is_null (_ : List Csession) (_ : Nat) : Bool := false

-- crypto_finish_session: remove the first session with the given sid (if
-- any) and return the pair (return code, new table).
def crypto_finish_session (fcr : List Csession) (sid : Nat) : Int × List Csession :=
  (if finish_ses_ptr_is_null fcr sid then -ENOENT else 0, finish_scan fcr sid)

-- ===== crypto_create_session (cryptodev.c lines 96-305) =====

-- struct session_op (key bytes are copied but only their lengths are
-- inspected by the core; key binding outcomes live in Provider).
structure SessionOp where
  cipher : Nat
  mac : Nat
  keylen : Nat
  mackeylen : Nat

-- Behavior of the external Transform Provider and the allocator during one
-- crypto_create_session call: whether crypto_alloc_blkcipher succeeds
-- (IS_ERR is false), whether crypto_blkcipher_alg returns non-NULL, the
-- algorithm's accepted key-length range, the setkey return codes, whether
-- crypto_alloc_hash succeeds, and whether the session kmalloc succeeds.
structure Provider where
  blkAllocOk : Bool
  blkalgPresent : Bool
  min_keysize : Nat
  max_keysize : Nat
  blkSetkeyRet : Int
  hashAllocOk : Bool
  hashSetkeyRet : Int
  kmallocOk : Bool

-- Observable outcome of one crypto_create_session call: the return value,
-- whether a session was inserted into the table, and which transform
-- handles were allocated and released during the call.
structure CreateResult where
  ret : Int
  inserted : Bool
  blkAllocated : Bool
  blkFreed : Bool
  hashAllocated : Bool
  hashFreed : Bool
  deriving DecidableEq

-- The `error:` label (lines 297-303): frees whichever transform handles are
-- currently allocated, returns ret, inserts nothing.
def createError (blkAllocated hashAllocated : Bool) (ret : Int) : CreateResult :=
  { ret := ret, inserted := false,
    blkAllocated := blkAllocated, blkFreed := blkAllocated,
    hashAllocated := hashAllocated, hashFreed := hashAllocated }

-- Lines 264-295: kmalloc the csession, draw the sid and insert.  On kmalloc
-- failure control reaches the error label; on success the handles are owned
-- by the inserted session (not freed by this call).
def createFinish (p : Provider) (blkAllocated hashAllocated : Bool) : CreateResult :=
  if p.kmallocOk = false then createError blkAllocated hashAllocated (-ENOMEM)
  else
    { ret := 0, inserted := true,
      blkAllocated := blkAllocated, blkFreed := false,
      hashAllocated := hashAllocated, hashFreed := false }

-- Lines 233-262, the `if (hash_name)` block.  hashMode is none when no hash
-- was requested, some hmac_mode otherwise.  When crypto_alloc_hash fails the
-- C code executes a bare `return -EINVAL` (line 238) instead of `goto
-- error`, so a cipher transform allocated earlier in the same call is not
-- released on that path.
def createHashPhase (p : Provider) (sop : SessionOp) (blkAllocated : Bool)
    (hashMode : Option Bool) : CreateResult :=
  match hashMode with
  | none => createFinish p blkAllocated false
  | some hmac_mode =>
    if p.hashAllocOk = false then
      { ret := -EINVAL, inserted := false,
        blkAllocated := blkAllocated, blkFreed := false,
        hashAllocated := false, hashFreed := false }
    else
      if hmac_mode then
        if CRYPTO_HMAC_MAX_KEY_LEN < sop.mackeylen then
          createError blkAllocated true (-EINVAL)
        else if p.hashSetkeyRet ≠ 0 then createError blkAllocated true (-EINVAL)
        else createFinish p blkAllocated true
      else createFinish p blkAllocated true

-- Lines 190-231, the `if (alg_name)` block: allocate the cipher transform,
-- validate the key length against the algorithm bounds and the fixed key
-- buffer, bind the key.
def createCipherPhase (p : Provider) (sop : SessionOp) (hasCipher : Bool)
    (hashMode : Option Bool) : CreateResult :=
  if hasCipher then
    if p.blkAllocOk = false then
      { ret := -EINVAL, inserted := false,
        blkAllocated := false, blkFreed := false,
        hashAllocated := false, hashFreed := false }
    else if p.blkalgPresent = true ∧
        (sop.keylen < p.min_keysize ∨ p.max_keysize < sop.keylen) then
      createError true false (-EINVAL)
    else if CRYPTO_CIPHER_MAX_KEY_LEN < sop.keylen then
      createError true false (-EINVAL)
    else if p.blkSetkeyRet ≠ 0 then createError true false (-EINVAL)
    else createHashPhase p sop true hashMode
  else createHashPhase p sop false hashMode

-- The switch on sop->cipher (lines 114-135): some hasCipher, or none for an
-- unknown identifier (-EINVAL).
def cipherSwitch (c : Nat) : Option Bool :=
  if c = 0 then some false
  else if c = CRYPTO_DES_CBC ∨ c = CRYPTO_3DES_CBC ∨ c = CRYPTO_BLF_CBC ∨
      c = CRYPTO_AES_CBC ∨ c = CRYPTO_CAMELLIA_CBC then some true
  else none

-- The switch on sop->mac (lines 137-188): some none when no hash requested,
-- some (some hmac_mode) for a known hash, none for an unknown identifier.
def macSwitch (m : Nat) : Option (Option Bool) :=
  if m = 0 then some none
  else if m = CRYPTO_MD5_HMAC ∨ m = CRYPTO_RIPEMD160_HMAC ∨ m = CRYPTO_SHA1_HMAC ∨
      m = CRYPTO_SHA2_256_HMAC ∨ m = CRYPTO_SHA2_384_HMAC ∨ m = CRYPTO_SHA2_512_HMAC then
    some (some true)
  else if m = CRYPTO_MD5 ∨ m = CRYPTO_RIPEMD160 ∨ m = CRYPTO_SHA1 ∨
      m = CRYPTO_SHA2_256 ∨ m = CRYPTO_SHA2_384 ∨ m = CRYPTO_SHA2_512 then
    some (some false)
  else none

-- crypto_create_session, up to and including the insert decision.
def crypto_create_session_res (p : Provider) (sop : SessionOp) : CreateResult :=
  if sop.cipher = 0 ∧ sop.mac = 0 then
    { ret := -EINVAL, inserted := false,
      blkAllocated := false, blkFreed := false,
      hashAllocated := false, hashFreed := false }
  else
    match cipherSwitch sop.cipher, macSwitch sop.mac with
    | none, _ =>
      { ret := -EINVAL, inserted := false,
        blkAllocated := false, blkFreed := false,
        hashAllocated := false, hashFreed := false }
    | some _, none =>
      { ret := -EINVAL, inserted := false,
        blkAllocated := false, blkFreed := false,
        hashAllocated := false, hashFreed := false }
    | some hasCipher, some hashMode => createCipherPhase p sop hasCipher hashMode

-- ===== The sid draw-and-rescan loop (cryptodev.c lines 272-290) =====

-- The restart loop: draw the k-th value of the random stream, rescan the
-- whole table from the start, and redraw on any collision.  The C loop is
-- unbounded ("Unless we have a broken RNG this shouldn't loop forever");
-- fuel bounds the number of draws, and none models non-termination.
def pick_sid (rng : Nat → Nat) (table : List Nat) (k : Nat) : Nat → Option Nat
  | 0 => none
  | fuel + 1 =>
    let cand := rng k
    if table.contains cand then pick_sid rng table (k + 1) fuel else some cand

-- A sequence of successful crypto_create_session calls on one table, each
-- drawing its sid via pick_sid (with its own draw index and fuel) and
-- inserting at the head via list_add.
def run_creates (rng : Nat → Nat) : List (Nat × Nat) → List Nat → Option (List Nat)
  | [], table => some table
  | (k, fuel) :: rest, table =>
    match pick_sid rng table k fuel with
    | none => none
    | some sid => run_creates rng rest (sid :: table)

-- ===== crypto_runv (cryptodev.c lines 404-563) =====

-- The mutable local state of one crypto_runv call: the cipher's running IV
-- state, the byte stream fed to crypto_hash_update so far (the running
-- digest state, re-initialized fresh at every call), and the bytes written
-- to the destination pointer so far.
structure EngineSt where
  biv : List Nat
  fed : List Nat
  dstOut : List Nat

-- One `crypto_hash_update` site (lines 491-497 / 521-527): applied only when
-- the session has a hash transform and the segment carries IOP_HASH; on a
-- nonzero return code control jumps to `out`.  The staging buffer is not
-- modified by hashing.
def hashStep : Option HashTfm → Nat → EngineSt → List Nat → EngineSt × Option Int
  | some h, flags, st, data =>
    if flags &&& IOP_HASH ≠ 0 then
      if h.updRet data = 0 then ({ st with fed := st.fed ++ data }, none)
      else (st, some (h.updRet data))
    else (st, none)
  | none, _, st, _ => (st, none)

-- One in-place cipher call plus the copy_to_user of the transformed chunk
-- (lines 498-507 / 509-519): applied only when the session has a cipher
-- transform and the segment carries IOP_CIPHER.  Returns the new engine
-- state and the new contents of the staging buffer.
def cipherStep (isEnc : Bool) :
    Option BlkCipherTfm → Nat → EngineSt → List Nat → (EngineSt × List Nat) × Option Int
  | some b, flags, st, data =>
    if flags &&& IOP_CIPHER ≠ 0 then
      let r := if isEnc then b.enc st.biv data else b.dec st.biv data
      if r.1 = 0 then
        (({ st with biv := r.2.1, dstOut := st.dstOut ++ r.2.2 }, r.2.2), none)
      else ((st, data), some r.1)
    else ((st, data), none)
  | none, _, st, data => ((st, data), none)

-- Processing of one staged chunk (lines 487-528): on encrypt, hash the
-- staging buffer before encrypting it in place; on decrypt (the else
-- branch), decrypt in place first and hash the now-decrypted buffer.
def procChunk (op flags : Nat) (btfm : Option BlkCipherTfm) (htfm : Option HashTfm)
    (st : EngineSt) (data : List Nat) : EngineSt × Option Int :=
  if op = COP_ENCRYPT then
    let r1 := hashStep htfm flags st data
    match r1.2 with
    | some e => (r1.1, some e)
    | none =>
      let r2 := cipherStep true btfm flags r1.1 data
      (r2.1.1, r2.2)
  else
    let r2 := cipherStep false btfm flags st data
    match r2.2 with
    | some e => (r2.1.1, some e)
    | none => hashStep htfm flags r2.1.1 r2.1.2

-- The while loop over one segment (lines 480-532): stream the segment
-- through the staging buffer in chunks of current_len = min nbytes bufsize
-- bytes.  The C loop consumes at least one byte per iteration (bufsize =
-- min PAGE_SIZE len is positive whenever the loop runs), so `fuel := len`
-- bounds its iteration count; the fuel-exhausted case is unreachable from
-- crypto_runv.
def segLoop (op flags : Nat) (btfm : Option BlkCipherTfm) (htfm : Option HashTfm)
    (src : List Nat) (bufsize : Nat) :
    Nat → Nat → Nat → EngineSt → EngineSt × Option Int
  | _, _, 0, st => (st, none)
  | 0, _, _, st => (st, none)
  | fuel + 1, srcOff, nbytes, st =>
    let current_len := min nbytes bufsize
    match procChunk op flags btfm htfm st ((src.drop srcOff).take current_len) with
    | (st1, some e) => (st1, some e)
    | (st1, none) =>
      segLoop op flags btfm htfm src bufsize fuel (srcOff + current_len)
        (nbytes - current_len) st1

-- The per-segment stats update (lines 534-542), guarded by enable_stats;
-- copv->op indexes stat[2] (COP_ENCRYPT = 0, COP_DECRYPT = 1).
def statUpdate (es : Bool) (op len : Nat) (s : Stats) : Stats :=
  if es then
    { statEnc := if op = COP_ENCRYPT then s.statEnc + len else s.statEnc,
      statDec := if op = COP_DECRYPT then s.statDec + len else s.statDec,
      stat_max_size := if s.stat_max_size < len then len else s.stat_max_size,
      stat_count := s.stat_count + 1 }
  else s

-- How the for loop over segments exits: fall through to hash finalization,
-- `goto out` (the staging page is freed), or `goto out_unlock` (the free is
-- skipped).
inductive RunExit where
  | fallthrough
  | errOut (e : Int)
  | errUnlock (e : Int)

-- The for loop over copv->iovec (lines 465-544).  For each segment: the
-- block-alignment rejection (lines 468-474, `goto out_unlock`), then the
-- staging-buffer while loop (transform failures `goto out`), then the stats
-- update.
def mainLoop (es : Bool) (op : Nat) (btfm : Option BlkCipherTfm) (htfm : Option HashTfm)
    (blocksize : Nat) : List Iovec → EngineSt → Stats → RunExit × EngineSt × Stats
  | [], st, stats => (.fallthrough, st, stats)
  | seg :: rest, st, stats =>
    if btfm.isSome = true ∧ seg.op_flags &&& IOP_CIPHER ≠ 0 ∧ seg.len % blocksize ≠ 0 then
      (.errUnlock (-EINVAL), st, stats)
    else
      let bufsize := min PAGE_SIZE seg.len
      match segLoop op seg.op_flags btfm htfm seg.src bufsize seg.len 0 seg.len st with
      | (st1, some e) => (.errOut e, st1, stats)
      | (st1, none) =>
        mainLoop es op btfm htfm blocksize rest st1 (statUpdate es op seg.len stats)

-- The crypto_hash_init return code at lines 444-451 (0 when the session has
-- no hash transform, since the call is skipped).
def hashInitRet (ses : Csession) : Int :=
  match ses.hash_tfm with
  | some h => h.initRet
  | none => 0

-- IV priming (lines 453-461): when the session has a cipher transform and
-- the request supplies an IV, copy ivsize bytes of it into the transform's
-- IV state; otherwise the transform's existing IV state is used as is.
def initialEngineSt (ses : Csession) (copv : CryptOpv) : EngineSt :=
  { biv :=
      match ses.tfm, copv.iv with
      | some b, some ivb => ivb.take b.ivsize
      | some b, none => b.iv
      | none, _ => []
    fed := []
    dstOut := [] }

-- The cipher transform's internal IV state as left behind by the call (set
-- by crypto_blkcipher_set_iv and by each in-place cipher operation).
def writebackIV (ses : Csession) (biv : List Nat) : Csession :=
  { ses with tfm := ses.tfm.map (fun b => { b with iv := biv }) }

def setStat (ses : Csession) (s : Stats) : Csession :=
  { ses with stat := s }

-- Observable outcome of one crypto_runv call on a locked session: the
-- return value, the session as left behind (IV state and stats), the bytes
-- written through copv->dst, the digest written through copv->mac, and
-- whether free_page was executed for the staging page.
structure RunvOut where
  ret : Int
  ses : Csession
  dstOut : List Nat
  macOut : Option (List Nat)
  pageFreed : Bool

-- Line 414 and 453-455: blocksize starts at 1 and is set from the cipher
-- transform when the session has one.
def sesBlocksize (ses : Csession) : Nat :=
  match ses.tfm with
  | some b => b.blocksize
  | none => 1

-- Lines 544-562: how one crypto_runv call ends, given the session's hash
-- transform and the exit of the segment loop.  `goto out_unlock` paths skip
-- the free_page at `out:`; the fall-through path finalizes the digest
-- (lines 546-554) and then frees the page.
def runvAssemble (ses : Csession) : Option HashTfm → RunExit × EngineSt × Stats → RunvOut
  | _, (.errUnlock e, st, stats) =>
    { ret := e, ses := setStat (writebackIV ses st.biv) stats,
      dstOut := st.dstOut, macOut := none, pageFreed := false }
  | _, (.errOut e, st, stats) =>
    { ret := e, ses := setStat (writebackIV ses st.biv) stats,
      dstOut := st.dstOut, macOut := none, pageFreed := true }
  | none, (.fallthrough, st, stats) =>
    { ret := 0, ses := setStat (writebackIV ses st.biv) stats,
      dstOut := st.dstOut, macOut := none, pageFreed := true }
  | some h, (.fallthrough, st, stats) =>
    if h.finalRet ≠ 0 then
      { ret := h.finalRet, ses := setStat (writebackIV ses st.biv) stats,
        dstOut := st.dstOut, macOut := none, pageFreed := true }
    else
      { ret := 0, ses := setStat (writebackIV ses st.biv) stats,
        dstOut := st.dstOut,
        macOut := some ((h.digest st.fed).take h.digestsize), pageFreed := true }

-- crypto_runv given the locked session (lines 423, 434-562): validate the
-- operation, allocate the staging page, initialize the running digest,
-- prime the IV, run the segment loop, finalize the digest.
def crypto_runv_locked (es : Bool) (allocOk : Bool) (ses : Csession)
    (copv : CryptOpv) : RunvOut :=
  if copv.op ≠ COP_ENCRYPT ∧ copv.op ≠ COP_DECRYPT then
    { ret := -EINVAL, ses := ses, dstOut := [], macOut := none, pageFreed := false }
  else if allocOk = false then
    { ret := -ENOMEM, ses := ses, dstOut := [], macOut := none, pageFreed := false }
  else if hashInitRet ses ≠ 0 then
    { ret := hashInitRet ses, ses := ses, dstOut := [], macOut := none, pageFreed := false }
  else
    runvAssemble ses ses.hash_tfm
      (mainLoop es copv.op ses.tfm ses.hash_tfm (sesBlocksize ses) copv.iovec
        (initialEngineSt ses copv) ses.stat)

-- The byte stream a request's segments present to the engine: for each
-- segment, the first len bytes of its source buffer, in segment order.
def plainBytes (ivs : List Iovec) : List Nat :=
  (ivs.map (fun seg => seg.src.take seg.len)).flatten

-- ===== Concrete instances for evaluations =====

-- A block-cipher transform whose operations succeed and leave data
-- unchanged (return code 0); enough to drive the engine's control flow.
def demoCipher (blocksize : Nat) : BlkCipherTfm :=
  { blocksize := blocksize, ivsize := 2, iv := [0, 0],
    enc := fun iv d => (0, iv, d), dec := fun iv d => (0, iv, d) }

-- A hash transform whose calls succeed and whose digest is the constant [5].
def demoHash : HashTfm :=
  { digestsize := 1, initRet := 0, updRet := fun _ => 0, finalRet := 0,
    digest := fun _ => [5], digest_len := fun _ => rfl }

def stats0 : Stats := { statEnc := 0, statDec := 0, stat_max_size := 0, stat_count := 0 }

-- ===== C1 =====

def c1ses : Csession := { sid := 3, tfm := none, hash_tfm := none, stat := stats0 }

/-- C1: in a table whose only session has sid 3, looking up sid 7 does not
produce a recognisable not-found result: crypto_get_session_by_sid leaves
the scan cursor at the non-NULL head sentinel, so the `if (!ses_ptr)` guard
in crypto_runv (line 429) evaluates to false and crypto_runv does not return
the invalid-session error before touching the (bogus) session. -/
theorem c1_lookup_not_found_undetected :
    crypto_get_session_by_sid [c1ses] 7 = SidLookup.headSentinel ∧
    lookupIsNull (crypto_get_session_by_sid [c1ses] 7) = false :=
  ⟨rfl, rfl⟩

-- ===== C2 =====

def c2ses : Csession := { sid := 3, tfm := none, hash_tfm := none, stat := stats0 }

/-- C2: destroying sid 7 in a table whose only session has sid 3 leaves the
table unchanged but returns 0 (success) instead of -ENOENT: after the
list_for_each_entry_safe scan the cursor is the non-NULL head sentinel, so
the `if (!ses_ptr)` branch that would set -ENOENT never executes. -/
theorem c2_finish_not_found_returns_success :
    crypto_finish_session [c2ses] 7 = (0, [c2ses]) :=
  rfl

-- ===== C3 =====

def c3prov : Provider :=
  { blkAllocOk := true, blkalgPresent := true, min_keysize := 16, max_keysize := 32,
    blkSetkeyRet := 0, hashAllocOk := false, hashSetkeyRet := 0, kmallocOk := true }

def c3sop : SessionOp :=
  { cipher := CRYPTO_AES_CBC, mac := CRYPTO_MD5_HMAC, keylen := 16, mackeylen := 8 }

/-- C3: a create_session call that allocates a cipher transform and then
fails to allocate the hash transform returns -EINVAL through the bare
`return` at line 238, bypassing the `error:` label -- the cipher transform
allocated in the same call is never released (blkFreed = false), though no
session is inserted. -/
theorem c3_cipher_handle_leaked_on_hash_alloc_failure :
    crypto_create_session_res c3prov c3sop =
      { ret := -EINVAL, inserted := false, blkAllocated := true, blkFreed := false,
        hashAllocated := false, hashFreed := false } := by
  decide

-- ===== C4 counterexample =====

def c4ses : Csession := { sid := 1, tfm := none, hash_tfm := some demoHash, stat := stats0 }

def c4copv : CryptOpv :=
  { op := COP_ENCRYPT, ses := 1, iv := none,
    iovec := [{ src := [1, 2, 3], len := 3, op_flags := IOP_CIPHER }] }

/-- C4 counterexample: a segment whose flags include apply-cipher (IOP_CIPHER),
submitted against a session with no cipher transform, is not rejected with a
configuration-mismatch error: crypto_runv returns 0 (success) and the segment
passes through unprocessed (no byte reaches the destination). -/
theorem c4_counterexample_cipher_flag_ignored :
    (crypto_runv_locked false true c4ses c4copv).ret = 0 ∧
    (crypto_runv_locked false true c4ses c4copv).dstOut = [] := by
  decide

-- ===== C5 =====

def c5ses : Csession :=
  { sid := 1, tfm := some (demoCipher 2), hash_tfm := none, stat := stats0 }

def c5copv : CryptOpv :=
  { op := COP_ENCRYPT, ses := 1, iv := none,
    iovec := [{ src := [1, 2, 3], len := 3, op_flags := IOP_CIPHER }] }

/-- C5: on the block-misalignment failure path (segment of 3 bytes against a
2-byte-block cipher) the call returns -EINVAL via `goto out_unlock`, which
skips the `free_page` at `out:` -- the successfully allocated staging page is
not released before the call returns. -/
theorem c5_staging_page_leaked_on_alignment_failure :
    (crypto_runv_locked false true c5ses c5copv).ret = -EINVAL ∧
    (crypto_runv_locked false true c5ses c5copv).pageFreed = false := by
  decide

-- ===== Step lemmas about the engine =====

theorem hashStep_biv (htfm : Option HashTfm) (flags : Nat) (st : EngineSt)
    (data : List Nat) : (hashStep htfm flags st data).1.biv = st.biv := by
  cases htfm with
  | none => rfl
  | some h =>
    simp only [hashStep]
    by_cases hf : flags &&& IOP_HASH ≠ 0
    · rw [if_pos hf]
      by_cases hr : h.updRet data = 0
      · rw [if_pos hr]
      · rw [if_neg hr]
    · rw [if_neg hf]

theorem hashStep_dstOut (htfm : Option HashTfm) (flags : Nat) (st : EngineSt)
    (data : List Nat) : (hashStep htfm flags st data).1.dstOut = st.dstOut := by
  cases htfm with
  | none => rfl
  | some h =>
    simp only [hashStep]
    by_cases hf : flags &&& IOP_HASH ≠ 0
    · rw [if_pos hf]
      by_cases hr : h.updRet data = 0
      · rw [if_pos hr]
      · rw [if_neg hr]
    · rw [if_neg hf]

theorem hashStep_err_ne (htfm : Option HashTfm) (flags : Nat) (st : EngineSt)
    (data : List Nat) (e : Int) :
    (hashStep htfm flags st data).2 = some e → e ≠ 0 := by
  cases htfm with
  | none => intro h; simp [hashStep] at h
  | some h =>
    simp only [hashStep]
    by_cases hf : flags &&& IOP_HASH ≠ 0
    · rw [if_pos hf]
      by_cases hr : h.updRet data = 0
      · rw [if_pos hr]; intro hh; simp at hh
      · rw [if_neg hr]
        intro hh
        simp at hh
        exact hh ▸ hr
    · rw [if_neg hf]; intro hh; simp at hh

theorem cipherStep_fed (isEnc : Bool) (btfm : Option BlkCipherTfm) (flags : Nat)
    (st : EngineSt) (data : List Nat) :
    (cipherStep isEnc btfm flags st data).1.1.fed = st.fed := by
  cases btfm with
  | none => rfl
  | some b =>
    simp only [cipherStep]
    by_cases hf : flags &&& IOP_CIPHER ≠ 0
    · rw [if_pos hf]
      by_cases hr : (if isEnc then b.enc st.biv data else b.dec st.biv data).1 = 0
      · rw [if_pos hr]
      · rw [if_neg hr]
    · rw [if_neg hf]

theorem cipherStep_err_ne (isEnc : Bool) (btfm : Option BlkCipherTfm) (flags : Nat)
    (st : EngineSt) (data : List Nat) (e : Int) :
    (cipherStep isEnc btfm flags st data).2 = some e → e ≠ 0 := by
  cases btfm with
  | none => intro h; simp [cipherStep] at h
  | some b =>
    simp only [cipherStep]
    by_cases hf : flags &&& IOP_CIPHER ≠ 0
    · rw [if_pos hf]
      by_cases hr : (if isEnc then b.enc st.biv data else b.dec st.biv data).1 = 0
      · rw [if_pos hr]; intro hh; simp at hh
      · rw [if_neg hr]
        intro hh
        simp at hh
        exact hh ▸ hr
    · rw [if_neg hf]; intro hh; simp at hh

theorem procChunk_err_ne (op flags : Nat) (btfm : Option BlkCipherTfm)
    (htfm : Option HashTfm) (st : EngineSt) (data : List Nat) (e : Int) :
    (procChunk op flags btfm htfm st data).2 = some e → e ≠ 0 := by
  simp only [procChunk]
  by_cases hop : op = COP_ENCRYPT
  · rw [if_pos hop]
    rcases hh : hashStep htfm flags st data with ⟨st1, oe1⟩
    cases oe1 with
    | none =>
      intro hx
      simp at hx
      exact cipherStep_err_ne true btfm flags st1 data e hx
    | some e1 =>
      intro hx
      simp at hx
      exact hx ▸ hashStep_err_ne htfm flags st data e1 (by rw [hh])
  · rw [if_neg hop]
    rcases hc : cipherStep false btfm flags st data with ⟨⟨st1, d1⟩, oe1⟩
    cases oe1 with
    | none =>
      intro hx
      simp at hx
      exact hashStep_err_ne htfm flags st1 d1 e hx
    | some e1 =>
      intro hx
      simp at hx
      exact hx ▸ cipherStep_err_ne false btfm flags st data e1 (by rw [hc])

theorem segLoop_zero_nbytes (op flags : Nat) (btfm : Option BlkCipherTfm)
    (htfm : Option HashTfm) (src : List Nat) (bufsize fuel srcOff : Nat) (st : EngineSt) :
    segLoop op flags btfm htfm src bufsize fuel srcOff 0 st = (st, none) := by
  cases fuel <;> simp [segLoop]

theorem segLoop_zero_fuel (op flags : Nat) (btfm : Option BlkCipherTfm)
    (htfm : Option HashTfm) (src : List Nat) (bufsize srcOff nbytes : Nat) (st : EngineSt) :
    segLoop op flags btfm htfm src bufsize 0 srcOff nbytes st = (st, none) := by
  cases nbytes <;> simp [segLoop]

theorem segLoop_succ (op flags : Nat) (btfm : Option BlkCipherTfm) (htfm : Option HashTfm)
    (src : List Nat) (bufsize fuel srcOff nbytes : Nat) (st : EngineSt)
    (h0 : nbytes ≠ 0) :
    segLoop op flags btfm htfm src bufsize (fuel + 1) srcOff nbytes st =
      match procChunk op flags btfm htfm st
          ((src.drop srcOff).take (min nbytes bufsize)) with
      | (st1, some e) => (st1, some e)
      | (st1, none) =>
        segLoop op flags btfm htfm src bufsize fuel (srcOff + min nbytes bufsize)
          (nbytes - min nbytes bufsize) st1 := by
  cases nbytes with
  | zero => exact absurd rfl h0
  | succ m => simp only [segLoop]

theorem segLoop_err_ne (op flags : Nat) (btfm : Option BlkCipherTfm) (htfm : Option HashTfm)
    (src : List Nat) (bufsize : Nat) :
    ∀ fuel srcOff nbytes st st1 e,
      segLoop op flags btfm htfm src bufsize fuel srcOff nbytes st = (st1, some e) →
      e ≠ 0 := by
  intro fuel
  induction fuel with
  | zero =>
    intro srcOff nbytes st st1 e h
    rw [segLoop_zero_fuel] at h
    simp at h
  | succ n ih =>
    intro srcOff nbytes st st1 e h
    cases nbytes with
    | zero => rw [segLoop_zero_nbytes] at h; simp at h
    | succ m =>
      rw [segLoop_succ op flags btfm htfm src bufsize n srcOff (m + 1) st (by omega)] at h
      rcases hp : procChunk op flags btfm htfm st
          ((src.drop srcOff).take (min (m + 1) bufsize)) with ⟨stx, oe⟩
      rw [hp] at h
      cases oe with
      | some e1 =>
        simp at h
        have hne := procChunk_err_ne op flags btfm htfm st
          ((src.drop srcOff).take (min (m + 1) bufsize)) e1 (by rw [hp])
        exact h.2 ▸ hne
      | none => exact ih _ _ _ _ _ h

theorem mainLoop_cons (es : Bool) (op : Nat) (btfm : Option BlkCipherTfm)
    (htfm : Option HashTfm) (bs : Nat) (seg : Iovec) (rest : List Iovec)
    (st : EngineSt) (stats : Stats) :
    mainLoop es op btfm htfm bs (seg :: rest) st stats =
      (if btfm.isSome = true ∧ seg.op_flags &&& IOP_CIPHER ≠ 0 ∧ seg.len % bs ≠ 0 then
        (.errUnlock (-EINVAL), st, stats)
      else
        match segLoop op seg.op_flags btfm htfm seg.src (min PAGE_SIZE seg.len)
            seg.len 0 seg.len st with
        | (st1, some e) => (.errOut e, st1, stats)
        | (st1, none) =>
          mainLoop es op btfm htfm bs rest st1 (statUpdate es op seg.len stats)) := by
  simp only [mainLoop]

theorem mainLoop_errOut_ne (es : Bool) (op : Nat) (btfm : Option BlkCipherTfm)
    (htfm : Option HashTfm) (bs : Nat) :
    ∀ ivs st stats st1 s1 e,
      mainLoop es op btfm htfm bs ivs st stats = (.errOut e, st1, s1) → e ≠ 0 := by
  intro ivs
  induction ivs with
  | nil => intro st stats st1 s1 e h; simp [mainLoop] at h
  | cons seg rest ih =>
    intro st stats st1 s1 e h
    rw [mainLoop_cons] at h
    by_cases hg : btfm.isSome = true ∧ seg.op_flags &&& IOP_CIPHER ≠ 0 ∧ seg.len % bs ≠ 0
    · rw [if_pos hg] at h; simp at h
    · rw [if_neg hg] at h
      rcases hs : segLoop op seg.op_flags btfm htfm seg.src (min PAGE_SIZE seg.len)
          seg.len 0 seg.len st with ⟨stx, oe⟩
      rw [hs] at h
      cases oe with
      | some e1 =>
        simp at h
        have hne := segLoop_err_ne op seg.op_flags btfm htfm seg.src (min PAGE_SIZE seg.len)
          seg.len 0 seg.len st stx e1 hs
        exact h.1 ▸ hne
      | none => exact ih _ _ _ _ _ h

theorem mainLoop_errUnlock_eq (es : Bool) (op : Nat) (btfm : Option BlkCipherTfm)
    (htfm : Option HashTfm) (bs : Nat) :
    ∀ ivs st stats st1 s1 e,
      mainLoop es op btfm htfm bs ivs st stats = (.errUnlock e, st1, s1) →
      e = -EINVAL := by
  intro ivs
  induction ivs with
  | nil => intro st stats st1 s1 e h; simp [mainLoop] at h
  | cons seg rest ih =>
    intro st stats st1 s1 e h
    rw [mainLoop_cons] at h
    by_cases hg : btfm.isSome = true ∧ seg.op_flags &&& IOP_CIPHER ≠ 0 ∧ seg.len % bs ≠ 0
    · rw [if_pos hg] at h
      simp at h
      exact h.1.symm
    · rw [if_neg hg] at h
      rcases hs : segLoop op seg.op_flags btfm htfm seg.src (min PAGE_SIZE seg.len)
          seg.len 0 seg.len st with ⟨stx, oe⟩
      rw [hs] at h
      cases oe with
      | some e1 => simp at h
      | none => exact ih _ _ _ _ _ h

theorem mainLoop_append (es : Bool) (op : Nat) (btfm : Option BlkCipherTfm)
    (htfm : Option HashTfm) (bs : Nat) (l1 l2 : List Iovec) (st : EngineSt) (stats : Stats) :
    mainLoop es op btfm htfm bs (l1 ++ l2) st stats =
      (match mainLoop es op btfm htfm bs l1 st stats with
      | (.fallthrough, st1, s1) => mainLoop es op btfm htfm bs l2 st1 s1
      | (.errOut e, st1, s1) => (.errOut e, st1, s1)
      | (.errUnlock e, st1, s1) => (.errUnlock e, st1, s1)) := by
  induction l1 generalizing st stats with
  | nil => rfl
  | cons seg rest ih =>
    rw [List.cons_append, mainLoop_cons, mainLoop_cons]
    by_cases hg : btfm.isSome = true ∧ seg.op_flags &&& IOP_CIPHER ≠ 0 ∧ seg.len % bs ≠ 0
    · rw [if_pos hg, if_pos hg]
    · rw [if_neg hg, if_neg hg]
      rcases hs : segLoop op seg.op_flags btfm htfm seg.src (min PAGE_SIZE seg.len)
          seg.len 0 seg.len st with ⟨stx, oe⟩
      cases oe with
      | some e1 => rfl
      | none => exact ih _ _

theorem take_chunk_split (l : List Nat) (off a b : Nat) :
    (l.drop off).take a ++ (l.drop (off + a)).take b = (l.drop off).take (a + b) := by
  rw [List.take_add, List.drop_drop]

theorem plainBytes_nil : plainBytes [] = [] := rfl

theorem plainBytes_cons (seg : Iovec) (rest : List Iovec) :
    plainBytes (seg :: rest) = seg.src.take seg.len ++ plainBytes rest := by
  simp [plainBytes]

theorem hashStep_ok_fed (h : HashTfm) (flags : Nat) (st sth : EngineSt)
    (data : List Nat) (hhf : flags &&& IOP_HASH ≠ 0)
    (hh : hashStep (some h) flags st data = (sth, none)) :
    sth.fed = st.fed ++ data := by
  simp only [hashStep] at hh
  rw [if_pos hhf] at hh
  by_cases hr : h.updRet data = 0
  · rw [if_pos hr] at hh
    have h1 := congrArg Prod.fst hh
    simp at h1
    rw [← h1]
  · rw [if_neg hr] at hh
    simp at hh

theorem cipherStep_ok_dst (isEnc : Bool) (b : BlkCipherTfm) (flags : Nat)
    (st st2 : EngineSt) (data d2 : List Nat) (hcf : flags &&& IOP_CIPHER ≠ 0)
    (hc : cipherStep isEnc (some b) flags st data = ((st2, d2), none)) :
    st2.dstOut = st.dstOut ++ d2 ∧ st2.fed = st.fed := by
  simp only [cipherStep] at hc
  rw [if_pos hcf] at hc
  by_cases hre : (if isEnc then b.enc st.biv data else b.dec st.biv data).1 = 0
  · rw [if_pos hre] at hc
    have h1 := congrArg (fun p => p.1.1) hc
    have h2 := congrArg (fun p => p.1.2) hc
    simp at h1 h2
    constructor
    · rw [← h1, ← h2]
    · rw [← h1]
  · rw [if_neg hre] at hc
    simp at hc

theorem procChunk_enc_fed (flags : Nat) (btfm : Option BlkCipherTfm) (h : HashTfm)
    (st st1 : EngineSt) (data : List Nat) (hhf : flags &&& IOP_HASH ≠ 0)
    (hp : procChunk COP_ENCRYPT flags btfm (some h) st data = (st1, none)) :
    st1.fed = st.fed ++ data := by
  simp only [procChunk, if_true] at hp
  rcases hh : hashStep (some h) flags st data with ⟨sth, oeh⟩
  rw [hh] at hp
  cases oeh with
  | some e => simp at hp
  | none =>
    simp at hp
    have hfe := cipherStep_fed true btfm flags sth data
    have hsth := hashStep_ok_fed h flags st sth data hhf hh
    rw [← hp.1, hfe, hsth]

theorem segLoop_enc_fed (flags : Nat) (btfm : Option BlkCipherTfm) (h : HashTfm)
    (src : List Nat) (bufsize : Nat) (hhf : flags &&& IOP_HASH ≠ 0) :
    ∀ fuel srcOff nbytes st st1,
      nbytes ≤ fuel → (nbytes ≠ 0 → bufsize ≠ 0) →
      segLoop COP_ENCRYPT flags btfm (some h) src bufsize fuel srcOff nbytes st =
        (st1, none) →
      st1.fed = st.fed ++ (src.drop srcOff).take nbytes := by
  intro fuel
  induction fuel with
  | zero =>
    intro srcOff nbytes st st1 hle hbz hs
    have h0 : nbytes = 0 := by omega
    subst h0
    rw [segLoop_zero_nbytes] at hs
    simp at hs
    simp [← hs]
  | succ n ih =>
    intro srcOff nbytes st st1 hle hbz hs
    by_cases h0 : nbytes = 0
    · subst h0
      rw [segLoop_zero_nbytes] at hs
      simp at hs
      simp [← hs]
    · rw [segLoop_succ _ _ _ _ _ _ _ _ _ _ h0] at hs
      rcases hp : procChunk COP_ENCRYPT flags btfm (some h) st
          ((src.drop srcOff).take (min nbytes bufsize)) with ⟨stx, oe⟩
      rw [hp] at hs
      cases oe with
      | some e => simp at hs
      | none =>
        have hbz2 : bufsize ≠ 0 := hbz h0
        have hfx := procChunk_enc_fed flags btfm h st stx _ hhf hp
        have hrec := ih (srcOff + min nbytes bufsize) (nbytes - min nbytes bufsize)
          stx st1 (by omega) (fun _ => hbz2) hs
        rw [hrec, hfx, List.append_assoc, take_chunk_split]
        have hsum : min nbytes bufsize + (nbytes - min nbytes bufsize) = nbytes := by omega
        rw [hsum]

theorem mainLoop_enc_fed (es : Bool) (btfm : Option BlkCipherTfm) (h : HashTfm) (bs : Nat) :
    ∀ ivs st stats st1 s1,
      (∀ seg ∈ ivs, seg.op_flags &&& IOP_HASH ≠ 0) →
      mainLoop es COP_ENCRYPT btfm (some h) bs ivs st stats = (.fallthrough, st1, s1) →
      st1.fed = st.fed ++ plainBytes ivs := by
  intro ivs
  induction ivs with
  | nil =>
    intro st stats st1 s1 hf hm
    simp [mainLoop] at hm
    simp [← hm.1, plainBytes_nil]
  | cons seg rest ih =>
    intro st stats st1 s1 hf hm
    rw [mainLoop_cons] at hm
    by_cases hg : btfm.isSome = true ∧ seg.op_flags &&& IOP_CIPHER ≠ 0 ∧ seg.len % bs ≠ 0
    · rw [if_pos hg] at hm; simp at hm
    · rw [if_neg hg] at hm
      rcases hs : segLoop COP_ENCRYPT seg.op_flags btfm (some h) seg.src
          (min PAGE_SIZE seg.len) seg.len 0 seg.len st with ⟨stx, oe⟩
      rw [hs] at hm
      cases oe with
      | some e => simp at hm
      | none =>
        have h1 := segLoop_enc_fed seg.op_flags btfm h seg.src (min PAGE_SIZE seg.len)
          (hf seg (by simp)) seg.len 0 seg.len st stx le_rfl
          (fun hz => by have hp4 : PAGE_SIZE = 4096 := rfl; omega) hs
        have h2 := ih stx _ st1 s1 (fun s hsm => hf s (by simp [hsm])) hm
        rw [h2, h1, plainBytes_cons, List.drop_zero, List.append_assoc]

theorem procChunk_dec_delta (flags : Nat) (b : BlkCipherTfm) (h : HashTfm)
    (st st1 : EngineSt) (data : List Nat)
    (hcf : flags &&& IOP_CIPHER ≠ 0) (hhf : flags &&& IOP_HASH ≠ 0)
    (hp : procChunk COP_DECRYPT flags (some b) (some h) st data = (st1, none)) :
    ∃ d, st1.fed = st.fed ++ d ∧ st1.dstOut = st.dstOut ++ d := by
  simp only [procChunk] at hp
  rw [if_neg (by decide)] at hp
  rcases hc : cipherStep false (some b) flags st data with ⟨⟨st2, d2⟩, oec⟩
  rw [hc] at hp
  cases oec with
  | some e => simp at hp
  | none =>
    simp at hp
    have hf1 := hashStep_ok_fed h flags st2 st1 d2 hhf hp
    have hd1 : st1.dstOut = st2.dstOut := by
      have hds := hashStep_dstOut (some h) flags st2 d2
      rw [hp] at hds
      exact hds
    obtain ⟨hdst, hfed⟩ := cipherStep_ok_dst false b flags st st2 data d2 hcf hc
    exact ⟨d2, by rw [hf1, hfed], by rw [hd1, hdst]⟩

theorem segLoop_dec_delta (flags : Nat) (b : BlkCipherTfm) (h : HashTfm)
    (src : List Nat) (bufsize : Nat)
    (hcf : flags &&& IOP_CIPHER ≠ 0) (hhf : flags &&& IOP_HASH ≠ 0) :
    ∀ fuel srcOff nbytes st st1,
      segLoop COP_DECRYPT flags (some b) (some h) src bufsize fuel srcOff nbytes st =
        (st1, none) →
      ∃ d, st1.fed = st.fed ++ d ∧ st1.dstOut = st.dstOut ++ d := by
  intro fuel
  induction fuel with
  | zero =>
    intro srcOff nbytes st st1 hs
    rw [segLoop_zero_fuel] at hs
    simp at hs
    exact ⟨[], by simp [← hs]⟩
  | succ n ih =>
    intro srcOff nbytes st st1 hs
    by_cases h0 : nbytes = 0
    · subst h0
      rw [segLoop_zero_nbytes] at hs
      simp at hs
      exact ⟨[], by simp [← hs]⟩
    · rw [segLoop_succ _ _ _ _ _ _ _ _ _ _ h0] at hs
      rcases hp : procChunk COP_DECRYPT flags (some b) (some h) st
          ((src.drop srcOff).take (min nbytes bufsize)) with ⟨stx, oe⟩
      rw [hp] at hs
      cases oe with
      | some e => simp at hs
      | none =>
        obtain ⟨d1, hd1f, hd1d⟩ := procChunk_dec_delta flags b h st stx _ hcf hhf hp
        obtain ⟨d2, hd2f, hd2d⟩ := ih _ _ stx st1 hs
        exact ⟨d1 ++ d2, by rw [hd2f, hd1f, List.append_assoc],
          by rw [hd2d, hd1d, List.append_assoc]⟩

theorem mainLoop_dec_delta (es : Bool) (b : BlkCipherTfm) (h : HashTfm) (bs : Nat) :
    ∀ ivs st stats st1 s1,
      (∀ seg ∈ ivs, seg.op_flags &&& IOP_CIPHER ≠ 0 ∧ seg.op_flags &&& IOP_HASH ≠ 0) →
      mainLoop es COP_DECRYPT (some b) (some h) bs ivs st stats =
        (.fallthrough, st1, s1) →
      ∃ d, st1.fed = st.fed ++ d ∧ st1.dstOut = st.dstOut ++ d := by
  intro ivs
  induction ivs with
  | nil =>
    intro st stats st1 s1 hf hm
    simp [mainLoop] at hm
    exact ⟨[], by simp [← hm.1]⟩
  | cons seg rest ih =>
    intro st stats st1 s1 hf hm
    rw [mainLoop_cons] at hm
    by_cases hg : (some b : Option BlkCipherTfm).isSome = true ∧
        seg.op_flags &&& IOP_CIPHER ≠ 0 ∧ seg.len % bs ≠ 0
    · rw [if_pos hg] at hm; simp at hm
    · rw [if_neg hg] at hm
      rcases hs : segLoop COP_DECRYPT seg.op_flags (some b) (some h) seg.src
          (min PAGE_SIZE seg.len) seg.len 0 seg.len st with ⟨stx, oe⟩
      rw [hs] at hm
      cases oe with
      | some e => simp at hm
      | none =>
        obtain ⟨d1, hd1f, hd1d⟩ := segLoop_dec_delta seg.op_flags b h seg.src
          (min PAGE_SIZE seg.len) (hf seg (by simp)).1 (hf seg (by simp)).2
          seg.len 0 seg.len st stx hs
        obtain ⟨d2, hd2f, hd2d⟩ := ih stx _ st1 s1 (fun s hsm => hf s (by simp [hsm])) hm
        exact ⟨d1 ++ d2, by rw [hd2f, hd1f, List.append_assoc],
          by rw [hd2d, hd1d, List.append_assoc]⟩

-- ===== Shape lemmas for crypto_runv_locked =====

theorem runv_locked_invalid (es allocOk : Bool) (ses : Csession) (copv : CryptOpv)
    (h : copv.op ≠ COP_ENCRYPT ∧ copv.op ≠ COP_DECRYPT) :
    crypto_runv_locked es allocOk ses copv =
      { ret := -EINVAL, ses := ses, dstOut := [], macOut := none, pageFreed := false } := by
  unfold crypto_runv_locked
  rw [if_pos h]

theorem runv_locked_initfail (es : Bool) (ses : Csession) (copv : CryptOpv)
    (hop : copv.op = COP_ENCRYPT ∨ copv.op = COP_DECRYPT)
    (hinit : hashInitRet ses ≠ 0) :
    crypto_runv_locked es true ses copv =
      { ret := hashInitRet ses, ses := ses, dstOut := [], macOut := none,
        pageFreed := false } := by
  unfold crypto_runv_locked
  rw [if_neg (by rcases hop with h | h <;> simp [h]), if_neg (by simp), if_pos hinit]

theorem runv_locked_shape (es : Bool) (ses : Csession) (copv : CryptOpv)
    (hop : copv.op = COP_ENCRYPT ∨ copv.op = COP_DECRYPT)
    (hinit : hashInitRet ses = 0) :
    crypto_runv_locked es true ses copv =
      runvAssemble ses ses.hash_tfm
        (mainLoop es copv.op ses.tfm ses.hash_tfm (sesBlocksize ses) copv.iovec
          (initialEngineSt ses copv) ses.stat) := by
  unfold crypto_runv_locked
  rw [if_neg (by rcases hop with h | h <;> simp [h]), if_neg (by simp),
    if_neg (by simp [hinit])]

theorem runvAssemble_errUnlock (ses : Csession) (htfm : Option HashTfm) (e : Int)
    (st : EngineSt) (stats : Stats) :
    runvAssemble ses htfm (.errUnlock e, st, stats) =
      { ret := e, ses := setStat (writebackIV ses st.biv) stats,
        dstOut := st.dstOut, macOut := none, pageFreed := false } := by
  cases htfm <;> rfl

theorem runvAssemble_errOut (ses : Csession) (htfm : Option HashTfm) (e : Int)
    (st : EngineSt) (stats : Stats) :
    runvAssemble ses htfm (.errOut e, st, stats) =
      { ret := e, ses := setStat (writebackIV ses st.biv) stats,
        dstOut := st.dstOut, macOut := none, pageFreed := true } := by
  cases htfm <;> rfl

theorem runvAssemble_fall_none (ses : Csession) (st : EngineSt) (stats : Stats) :
    runvAssemble ses none (.fallthrough, st, stats) =
      { ret := 0, ses := setStat (writebackIV ses st.biv) stats,
        dstOut := st.dstOut, macOut := none, pageFreed := true } := rfl

theorem runvAssemble_fall_hash_ok (ses : Csession) (h : HashTfm) (st : EngineSt)
    (stats : Stats) (hfin : h.finalRet = 0) :
    runvAssemble ses (some h) (.fallthrough, st, stats) =
      { ret := 0, ses := setStat (writebackIV ses st.biv) stats,
        dstOut := st.dstOut,
        macOut := some ((h.digest st.fed).take h.digestsize), pageFreed := true } := by
  simp only [runvAssemble]
  rw [if_neg (by simp [hfin])]

theorem runvAssemble_fall_hash_fail (ses : Csession) (h : HashTfm) (st : EngineSt)
    (stats : Stats) (hfin : h.finalRet ≠ 0) :
    runvAssemble ses (some h) (.fallthrough, st, stats) =
      { ret := h.finalRet, ses := setStat (writebackIV ses st.biv) stats,
        dstOut := st.dstOut, macOut := none, pageFreed := true } := by
  simp only [runvAssemble]
  rw [if_pos hfin]

-- ===== Flag- and transform-absence lemmas =====

theorem hashStep_no_flag (htfm : Option HashTfm) (flags : Nat) (st : EngineSt)
    (data : List Nat) (h0 : flags &&& IOP_HASH = 0) :
    hashStep htfm flags st data = (st, none) := by
  cases htfm with
  | none => rfl
  | some h => simp [hashStep, h0]

theorem cipherStep_no_flag (isEnc : Bool) (btfm : Option BlkCipherTfm) (flags : Nat)
    (st : EngineSt) (data : List Nat) (h0 : flags &&& IOP_CIPHER = 0) :
    cipherStep isEnc btfm flags st data = ((st, data), none) := by
  cases btfm with
  | none => rfl
  | some b => simp [cipherStep, h0]

theorem procChunk_fed_const (op flags : Nat) (btfm : Option BlkCipherTfm)
    (htfm : Option HashTfm) (st : EngineSt) (data : List Nat)
    (h0 : flags &&& IOP_HASH = 0) :
    (procChunk op flags btfm htfm st data).1.fed = st.fed := by
  simp only [procChunk]
  by_cases hop : op = COP_ENCRYPT
  · rw [if_pos hop, hashStep_no_flag htfm flags st data h0]
    exact cipherStep_fed true btfm flags st data
  · rw [if_neg hop]
    have hcf := cipherStep_fed false btfm flags st data
    rcases hc : cipherStep false btfm flags st data with ⟨⟨st2, d2⟩, oec⟩
    rw [hc] at hcf
    simp at hcf
    cases oec with
    | some e => exact hcf
    | none =>
      show (hashStep htfm flags st2 d2).1.fed = st.fed
      rw [hashStep_no_flag htfm flags st2 d2 h0]
      exact hcf

theorem segLoop_fed_const (op flags : Nat) (btfm : Option BlkCipherTfm)
    (htfm : Option HashTfm) (src : List Nat) (bufsize : Nat)
    (h0 : flags &&& IOP_HASH = 0) :
    ∀ fuel srcOff nbytes st st1 oe,
      segLoop op flags btfm htfm src bufsize fuel srcOff nbytes st = (st1, oe) →
      st1.fed = st.fed := by
  intro fuel
  induction fuel with
  | zero =>
    intro srcOff nbytes st st1 oe hs
    rw [segLoop_zero_fuel] at hs
    injection hs with h1 h2
    rw [← h1]
  | succ n ih =>
    intro srcOff nbytes st st1 oe hs
    by_cases hz : nbytes = 0
    · subst hz
      rw [segLoop_zero_nbytes] at hs
      injection hs with h1 h2
      rw [← h1]
    · rw [segLoop_succ _ _ _ _ _ _ _ _ _ _ hz] at hs
      have hpf := procChunk_fed_const op flags btfm htfm st
        ((src.drop srcOff).take (min nbytes bufsize)) h0
      rcases hp : procChunk op flags btfm htfm st
          ((src.drop srcOff).take (min nbytes bufsize)) with ⟨stx, oe2⟩
      rw [hp] at hs hpf
      simp at hpf
      cases oe2 with
      | some e =>
        simp at hs
        rw [← hs.1]
        exact hpf
      | none => exact (ih _ _ _ _ _ hs).trans hpf

theorem mainLoop_fed_const (es : Bool) (op : Nat) (btfm : Option BlkCipherTfm)
    (htfm : Option HashTfm) (bs : Nat) :
    ∀ ivs st stats ex st1 s1,
      (∀ seg ∈ ivs, seg.op_flags &&& IOP_HASH = 0) →
      mainLoop es op btfm htfm bs ivs st stats = (ex, st1, s1) →
      st1.fed = st.fed := by
  intro ivs
  induction ivs with
  | nil =>
    intro st stats ex st1 s1 hf hm
    simp [mainLoop] at hm
    rw [← hm.2.1]
  | cons seg rest ih =>
    intro st stats ex st1 s1 hf hm
    rw [mainLoop_cons] at hm
    by_cases hg : btfm.isSome = true ∧ seg.op_flags &&& IOP_CIPHER ≠ 0 ∧ seg.len % bs ≠ 0
    · rw [if_pos hg] at hm
      simp at hm
      rw [← hm.2.1]
    · rw [if_neg hg] at hm
      rcases hs : segLoop op seg.op_flags btfm htfm seg.src (min PAGE_SIZE seg.len)
          seg.len 0 seg.len st with ⟨stx, oe⟩
      rw [hs] at hm
      have hsegf := segLoop_fed_const op seg.op_flags btfm htfm seg.src
        (min PAGE_SIZE seg.len) (hf seg (by simp)) seg.len 0 seg.len st stx oe hs
      cases oe with
      | some e =>
        simp at hm
        rw [← hm.2.1]
        exact hsegf
      | none => exact (ih _ _ _ _ _ (fun s hsm => hf s (by simp [hsm])) hm).trans hsegf

theorem procChunk_noop (op flags : Nat) (btfm : Option BlkCipherTfm)
    (htfm : Option HashTfm) (st : EngineSt) (data : List Nat)
    (hbc : btfm = none ∨ flags &&& IOP_CIPHER = 0)
    (hbh : htfm = none ∨ flags &&& IOP_HASH = 0) :
    procChunk op flags btfm htfm st data = (st, none) := by
  have hcs : ∀ isEnc st0 d0, cipherStep isEnc btfm flags st0 d0 = ((st0, d0), none) := by
    intro isEnc st0 d0
    rcases hbc with h | h
    · subst h; rfl
    · exact cipherStep_no_flag isEnc btfm flags st0 d0 h
  have hhs : ∀ st0 d0, hashStep htfm flags st0 d0 = (st0, none) := by
    intro st0 d0
    rcases hbh with h | h
    · subst h; rfl
    · exact hashStep_no_flag htfm flags st0 d0 h
  simp only [procChunk]
  by_cases hop : op = COP_ENCRYPT
  · rw [if_pos hop, hhs st data]
    show ((cipherStep true btfm flags st data).1.1, (cipherStep true btfm flags st data).2) =
      (st, none)
    rw [hcs true st data]
  · rw [if_neg hop, hcs false st data]
    show hashStep htfm flags st data = (st, none)
    exact hhs st data

theorem segLoop_noop (op flags : Nat) (btfm : Option BlkCipherTfm) (htfm : Option HashTfm)
    (src : List Nat) (bufsize : Nat)
    (hbc : btfm = none ∨ flags &&& IOP_CIPHER = 0)
    (hbh : htfm = none ∨ flags &&& IOP_HASH = 0) :
    ∀ fuel srcOff nbytes st,
      segLoop op flags btfm htfm src bufsize fuel srcOff nbytes st = (st, none) := by
  intro fuel
  induction fuel with
  | zero => intro srcOff nbytes st; exact segLoop_zero_fuel _ _ _ _ _ _ _ _ _
  | succ n ih =>
    intro srcOff nbytes st
    by_cases hz : nbytes = 0
    · subst hz; exact segLoop_zero_nbytes _ _ _ _ _ _ _ _ _
    · rw [segLoop_succ _ _ _ _ _ _ _ _ _ _ hz,
        procChunk_noop op flags btfm htfm st _ hbc hbh]
      exact ih _ _ _

theorem mainLoop_noop (es : Bool) (op : Nat) (btfm : Option BlkCipherTfm)
    (htfm : Option HashTfm) (bs : Nat) :
    ∀ ivs st stats,
      (∀ seg ∈ ivs, (btfm = none ∨ seg.op_flags &&& IOP_CIPHER = 0) ∧
        (htfm = none ∨ seg.op_flags &&& IOP_HASH = 0)) →
      ∃ s1, mainLoop es op btfm htfm bs ivs st stats = (.fallthrough, st, s1) := by
  intro ivs
  induction ivs with
  | nil => intro st stats hf; exact ⟨stats, rfl⟩
  | cons seg rest ih =>
    intro st stats hf
    rw [mainLoop_cons]
    have hg : ¬(btfm.isSome = true ∧ seg.op_flags &&& IOP_CIPHER ≠ 0 ∧
        seg.len % bs ≠ 0) := by
      rcases (hf seg (by simp)).1 with h | h
      · subst h; simp
      · intro hc; exact hc.2.1 h
    rw [if_neg hg, segLoop_noop op seg.op_flags btfm htfm seg.src (min PAGE_SIZE seg.len)
      (hf seg (by simp)).1 (hf seg (by simp)).2 seg.len 0 seg.len st]
    exact ih st _ (fun s hs => hf s (by simp [hs]))

-- ===== The cipher handle's iv field does not influence the engine =====

theorem cipherStep_iv_congr (isEnc : Bool) (b : BlkCipherTfm) (x : List Nat)
    (flags : Nat) (st : EngineSt) (data : List Nat) :
    cipherStep isEnc (some { b with iv := x }) flags st data =
      cipherStep isEnc (some b) flags st data := rfl

theorem procChunk_iv_congr (op flags : Nat) (b : BlkCipherTfm) (x : List Nat)
    (htfm : Option HashTfm) (st : EngineSt) (data : List Nat) :
    procChunk op flags (some { b with iv := x }) htfm st data =
      procChunk op flags (some b) htfm st data := rfl

theorem segLoop_iv_congr (op flags : Nat) (b : BlkCipherTfm) (x : List Nat)
    (htfm : Option HashTfm) (src : List Nat) (bufsize : Nat) :
    ∀ fuel srcOff nbytes st,
      segLoop op flags (some { b with iv := x }) htfm src bufsize fuel srcOff nbytes st =
        segLoop op flags (some b) htfm src bufsize fuel srcOff nbytes st := by
  intro fuel
  induction fuel with
  | zero => intro srcOff nbytes st; rw [segLoop_zero_fuel, segLoop_zero_fuel]
  | succ n ih =>
    intro srcOff nbytes st
    by_cases hz : nbytes = 0
    · subst hz; rw [segLoop_zero_nbytes, segLoop_zero_nbytes]
    · rw [segLoop_succ _ _ _ _ _ _ _ _ _ _ hz, segLoop_succ _ _ _ _ _ _ _ _ _ _ hz,
        procChunk_iv_congr]
      rcases hp : procChunk op flags (some b) htfm st
          ((src.drop srcOff).take (min nbytes bufsize)) with ⟨stx, oe⟩
      cases oe with
      | some e => rfl
      | none => exact ih _ _ _

theorem mainLoop_iv_congr (es : Bool) (op : Nat) (b : BlkCipherTfm) (x : List Nat)
    (htfm : Option HashTfm) (bs : Nat) :
    ∀ ivs st stats,
      mainLoop es op (some { b with iv := x }) htfm bs ivs st stats =
        mainLoop es op (some b) htfm bs ivs st stats := by
  intro ivs
  induction ivs with
  | nil => intro st stats; rfl
  | cons seg rest ih =>
    intro st stats
    rw [mainLoop_cons, mainLoop_cons]
    simp only [Option.isSome_some, true_and]
    by_cases hg : seg.op_flags &&& IOP_CIPHER ≠ 0 ∧ seg.len % bs ≠ 0
    · rw [if_pos hg, if_pos hg]
    · rw [if_neg hg, if_neg hg, segLoop_iv_congr]
      rcases hs : segLoop op seg.op_flags (some b) htfm seg.src (min PAGE_SIZE seg.len)
          seg.len 0 seg.len st with ⟨stx, oe⟩
      cases oe with
      | some e => rfl
      | none => exact ih _ _

-- ===== C8 =====

theorem pick_sid_not_mem (rng : Nat → Nat) (table : List Nat) :
    ∀ fuel k sid, pick_sid rng table k fuel = some sid → sid ∉ table := by
  intro fuel
  induction fuel with
  | zero => intro k sid h; simp [pick_sid] at h
  | succ n ih =>
    intro k sid h
    simp only [pick_sid] at h
    by_cases hc : table.contains (rng k) = true
    · rw [if_pos hc] at h
      exact ih _ _ h
    · rw [if_neg hc] at h
      simp at h
      subst h
      simpa using hc

/-- C8: over any sequence of successful create_session calls on one table
(each drawing its sid through the draw-and-full-rescan loop of lines
272-287, with list_add insertion), no two live sessions ever share an id:
a no-duplicates table stays duplicate-free. -/
theorem c8_sid_uniqueness (rng : Nat → Nat) :
    ∀ seeds table table2, table.Nodup →
      run_creates rng seeds table = some table2 → table2.Nodup := by
  intro seeds
  induction seeds with
  | nil =>
    intro table table2 hnd h
    simp [run_creates] at h
    exact h ▸ hnd
  | cons kf rest ih =>
    intro table table2 hnd h
    obtain ⟨k, fuel⟩ := kf
    simp only [run_creates] at h
    rcases hp : pick_sid rng table k fuel with _ | sid
    · rw [hp] at h; simp at h
    · rw [hp] at h
      exact ih _ _
        (List.nodup_cons.mpr ⟨pick_sid_not_mem rng table fuel k sid hp, hnd⟩) h

theorem c8_sid_uniqueness_witness :
    ([] : List Nat).Nodup ∧
    run_creates (fun k => k) [(0, 5), (0, 5)] [] = some [1, 0] ∧
    ([1, 0] : List Nat).Nodup :=
  ⟨by decide, by decide,
    c8_sid_uniqueness (fun k => k) [(0, 5), (0, 5)] [] [1, 0] (by decide) (by decide)⟩

-- ===== C10 =====

/-- C10: on a session with a hash transform, any crypto_runv call that
returns success writes a digest of the transform's fixed output size to the
mac output even when no segment carries the apply-hash flag (including a
request with zero segments): the running digest is initialized fresh at the
start of the call and finalized unconditionally, so the written MAC is the
digest of the empty byte stream. -/
theorem c10_mac_of_empty_stream (es : Bool) (ses : Csession) (h : HashTfm)
    (copv : CryptOpv) (hh : ses.hash_tfm = some h)
    (hflags : ∀ seg ∈ copv.iovec, seg.op_flags &&& IOP_HASH = 0)
    (hret : (crypto_runv_locked es true ses copv).ret = 0) :
    (crypto_runv_locked es true ses copv).macOut =
      some ((h.digest []).take h.digestsize) ∧
    ((h.digest []).take h.digestsize).length = h.digestsize := by
  constructor
  case right =>
    rw [List.length_take, h.digest_len]
    exact Nat.min_self _
  case left =>
  by_cases hop : copv.op = COP_ENCRYPT ∨ copv.op = COP_DECRYPT
  case neg =>
    rw [runv_locked_invalid es true ses copv (by push_neg at hop; exact hop)] at hret
    norm_num [EINVAL] at hret
  by_cases hinit : hashInitRet ses = 0
  case neg =>
    rw [runv_locked_initfail es ses copv hop hinit] at hret
    exact absurd hret hinit
  rw [runv_locked_shape es ses copv hop hinit] at hret ⊢
  rcases hm : mainLoop es copv.op ses.tfm ses.hash_tfm (sesBlocksize ses) copv.iovec
      (initialEngineSt ses copv) ses.stat with ⟨ex, st1, s1⟩
  rw [hm] at hret
  have hfed := mainLoop_fed_const es copv.op ses.tfm ses.hash_tfm (sesBlocksize ses)
    copv.iovec (initialEngineSt ses copv) ses.stat ex st1 s1 hflags hm
  have hfed0 : st1.fed = [] := by rw [hfed]; rfl
  cases ex with
  | errUnlock e =>
    rw [runvAssemble_errUnlock] at hret
    have he := mainLoop_errUnlock_eq es copv.op ses.tfm ses.hash_tfm (sesBlocksize ses)
      copv.iovec (initialEngineSt ses copv) ses.stat st1 s1 e hm
    rw [he] at hret
    norm_num [EINVAL] at hret
  | errOut e =>
    rw [runvAssemble_errOut] at hret
    exact absurd hret (mainLoop_errOut_ne es copv.op ses.tfm ses.hash_tfm
      (sesBlocksize ses) copv.iovec (initialEngineSt ses copv) ses.stat st1 s1 e hm)
  | fallthrough =>
    rw [hh] at hret ⊢
    by_cases hfin : h.finalRet = 0
    case neg =>
      rw [runvAssemble_fall_hash_fail ses h st1 s1 hfin] at hret
      exact absurd hret hfin
    rw [runvAssemble_fall_hash_ok ses h st1 s1 hfin, hfed0]

def c10ses : Csession := { sid := 2, tfm := none, hash_tfm := some demoHash, stat := stats0 }

def c10copv : CryptOpv := { op := COP_DECRYPT, ses := 2, iv := none, iovec := [] }

theorem c10_mac_of_empty_stream_witness :
    c10ses.hash_tfm = some demoHash ∧
    (∀ seg ∈ c10copv.iovec, seg.op_flags &&& IOP_HASH = 0) ∧
    (crypto_runv_locked false true c10ses c10copv).ret = 0 ∧
    (crypto_runv_locked false true c10ses c10copv).macOut =
      some ((demoHash.digest []).take demoHash.digestsize) :=
  ⟨rfl, by decide, by decide,
    (c10_mac_of_empty_stream false c10ses demoHash c10copv rfl (by decide) (by decide)).1⟩

-- ===== C4 (amended) =====

/-- C4 (amended): a segment flag naming an absent transform is silently
ignored rather than rejected.  First part: on a session with no cipher
transform, apply-cipher flags cause no error and contribute no destination
bytes (here on a hash-only session whose hash calls succeed and with no
apply-hash flags in the request).  Second part: on a session with no hash
transform, apply-hash flags cause no error, no destination bytes and no mac
output (with no apply-cipher flags in the request). -/
theorem c4_flags_on_absent_transform_ignored (es : Bool) (ses : Csession)
    (copv : CryptOpv) (hop : copv.op = COP_ENCRYPT ∨ copv.op = COP_DECRYPT) :
    (∀ h, ses.tfm = none → ses.hash_tfm = some h → h.initRet = 0 → h.finalRet = 0 →
      (∀ seg ∈ copv.iovec, seg.op_flags &&& IOP_HASH = 0) →
      (crypto_runv_locked es true ses copv).ret = 0 ∧
      (crypto_runv_locked es true ses copv).dstOut = []) ∧
    (ses.hash_tfm = none →
      (∀ seg ∈ copv.iovec, seg.op_flags &&& IOP_CIPHER = 0) →
      (crypto_runv_locked es true ses copv).ret = 0 ∧
      (crypto_runv_locked es true ses copv).dstOut = [] ∧
      (crypto_runv_locked es true ses copv).macOut = none) := by
  constructor
  · intro h hbt hht hinit hfin hfl
    have hinit0 : hashInitRet ses = 0 := by simp [hashInitRet, hht, hinit]
    rw [runv_locked_shape es ses copv hop hinit0]
    obtain ⟨s1, hm⟩ := mainLoop_noop es copv.op ses.tfm ses.hash_tfm (sesBlocksize ses)
      copv.iovec (initialEngineSt ses copv) ses.stat
      (fun seg hsm => ⟨Or.inl hbt, Or.inr (hfl seg hsm)⟩)
    rw [hm, hht, runvAssemble_fall_hash_ok ses h _ s1 hfin]
    exact ⟨rfl, rfl⟩
  · intro hht hfl
    have hinit0 : hashInitRet ses = 0 := by simp [hashInitRet, hht]
    rw [runv_locked_shape es ses copv hop hinit0]
    obtain ⟨s1, hm⟩ := mainLoop_noop es copv.op ses.tfm ses.hash_tfm (sesBlocksize ses)
      copv.iovec (initialEngineSt ses copv) ses.stat
      (fun seg hsm => ⟨Or.inr (hfl seg hsm), Or.inl hht⟩)
    rw [hm, hht, runvAssemble_fall_none]
    exact ⟨rfl, rfl, rfl⟩

def c4wses : Csession := { sid := 9, tfm := none, hash_tfm := some demoHash, stat := stats0 }

def c4wcopv : CryptOpv :=
  { op := COP_ENCRYPT, ses := 9, iv := none,
    iovec := [{ src := [1, 2], len := 2, op_flags := IOP_CIPHER }] }

theorem c4_flags_on_absent_transform_ignored_witness :
    (c4wcopv.op = COP_ENCRYPT ∨ c4wcopv.op = COP_DECRYPT) ∧
    (crypto_runv_locked false true c4wses c4wcopv).ret = 0 ∧
    (crypto_runv_locked false true c4wses c4wcopv).dstOut = [] :=
  ⟨Or.inl rfl,
    ((c4_flags_on_absent_transform_ignored false c4wses c4wcopv (Or.inl rfl)).1
      demoHash rfl rfl rfl rfl (by decide)).1,
    ((c4_flags_on_absent_transform_ignored false c4wses c4wcopv (Or.inl rfl)).1
      demoHash rfl rfl rfl rfl (by decide)).2⟩

-- ===== C7 =====

/-- C7: a cipher-flagged segment whose length is not a multiple of the
cipher's block size is rejected with -EINVAL at the start of that segment,
before any byte of it is staged, transformed or written: the destination
bytes and stats are exactly those left by the earlier segments of the same
call, and no mac is written. -/
theorem c7_alignment_rejected_before_processing (es : Bool) (ses : Csession)
    (b : BlkCipherTfm) (copv : CryptOpv) (pre rest : List Iovec) (bad : Iovec)
    (st1 : EngineSt) (s1 : Stats)
    (hb : ses.tfm = some b)
    (hop : copv.op = COP_ENCRYPT ∨ copv.op = COP_DECRYPT)
    (hinit : hashInitRet ses = 0)
    (hiov : copv.iovec = pre ++ bad :: rest)
    (hbadf : bad.op_flags &&& IOP_CIPHER ≠ 0)
    (hbadlen : bad.len % b.blocksize ≠ 0)
    (hpre : mainLoop es copv.op ses.tfm ses.hash_tfm (sesBlocksize ses) pre
      (initialEngineSt ses copv) ses.stat = (.fallthrough, st1, s1)) :
    crypto_runv_locked es true ses copv =
      { ret := -EINVAL, ses := setStat (writebackIV ses st1.biv) s1,
        dstOut := st1.dstOut, macOut := none, pageFreed := false } := by
  have hbs : sesBlocksize ses = b.blocksize := by simp [sesBlocksize, hb]
  have hfull : mainLoop es copv.op ses.tfm ses.hash_tfm (sesBlocksize ses)
      (pre ++ bad :: rest) (initialEngineSt ses copv) ses.stat =
      (.errUnlock (-EINVAL), st1, s1) := by
    rw [mainLoop_append, hpre]
    show mainLoop es copv.op ses.tfm ses.hash_tfm (sesBlocksize ses) (bad :: rest)
        st1 s1 = (.errUnlock (-EINVAL), st1, s1)
    rw [mainLoop_cons,
      if_pos ⟨by rw [hb]; rfl, hbadf, by rw [hbs]; exact hbadlen⟩]
  rw [runv_locked_shape es ses copv hop hinit, hiov, hfull, runvAssemble_errUnlock]

def c7ses : Csession :=
  { sid := 6, tfm := some (demoCipher 2), hash_tfm := none, stat := stats0 }

def c7bad : Iovec := { src := [1, 2, 3], len := 3, op_flags := IOP_CIPHER }

def c7copv : CryptOpv := { op := COP_ENCRYPT, ses := 6, iv := none, iovec := [c7bad] }

theorem c7_alignment_rejected_before_processing_witness :
    c7ses.tfm = some (demoCipher 2) ∧
    c7bad.op_flags &&& IOP_CIPHER ≠ 0 ∧
    c7bad.len % (demoCipher 2).blocksize ≠ 0 ∧
    crypto_runv_locked false true c7ses c7copv =
      { ret := -EINVAL,
        ses := setStat (writebackIV c7ses (initialEngineSt c7ses c7copv).biv) c7ses.stat,
        dstOut := (initialEngineSt c7ses c7copv).dstOut, macOut := none,
        pageFreed := false } :=
  ⟨rfl, by decide, by decide,
    c7_alignment_rejected_before_processing false c7ses (demoCipher 2) c7copv [] []
      c7bad (initialEngineSt c7ses c7copv) c7ses.stat rfl (Or.inl rfl) rfl rfl
      (by decide) (by decide) rfl⟩

-- ===== C9 =====

/-- C9: when a request supplies an IV, the cipher's IV state is primed from
exactly ivsize bytes of it before any segment is processed -- the call is
indistinguishable from one on a session whose cipher transform already held
that IV state and whose request carries no IV.  When no IV is supplied
(second part, shown for an empty request on a hash-less session) the
transform's existing IV state is left untouched: the session comes back
exactly as it went in, so a later call without an IV continues from the IV
state left behind. -/
theorem c9_iv_primed_or_preserved (es : Bool) (ses : Csession) (b : BlkCipherTfm)
    (copv : CryptOpv)
    (hb : ses.tfm = some b)
    (hop : copv.op = COP_ENCRYPT ∨ copv.op = COP_DECRYPT)
    (hinit : hashInitRet ses = 0) :
    (∀ ivb, copv.iv = some ivb →
      crypto_runv_locked es true ses copv =
        crypto_runv_locked es true
          { ses with tfm := some { b with iv := ivb.take b.ivsize } }
          { copv with iv := none }) ∧
    (copv.iv = none → copv.iovec = [] → ses.hash_tfm = none →
      crypto_runv_locked es true ses copv =
        { ret := 0, ses := ses, dstOut := [], macOut := none, pageFreed := true }) := by
  constructor
  · intro ivb hiv
    have hbs : sesBlocksize ses = b.blocksize := by simp [sesBlocksize, hb]
    have heq : initialEngineSt ses copv =
        { biv := ivb.take b.ivsize, fed := [], dstOut := [] } := by
      simp [initialEngineSt, hb, hiv]
    have hwb : ∀ biv2, writebackIV ses biv2 =
        writebackIV { ses with tfm := some { b with iv := ivb.take b.ivsize } } biv2 := by
      intro biv2
      simp [writebackIV, hb]
    have hasm : ∀ htf r, runvAssemble ses htf r =
        runvAssemble { ses with tfm := some { b with iv := ivb.take b.ivsize } } htf r := by
      intro htf r
      rcases r with ⟨ex, st, stats⟩
      cases ex with
      | errUnlock e => rw [runvAssemble_errUnlock, runvAssemble_errUnlock, hwb]
      | errOut e => rw [runvAssemble_errOut, runvAssemble_errOut, hwb]
      | fallthrough =>
        cases htf with
        | none => rw [runvAssemble_fall_none, runvAssemble_fall_none, hwb]
        | some h2 =>
          by_cases hfin : h2.finalRet = 0
          · rw [runvAssemble_fall_hash_ok _ _ _ _ hfin,
              runvAssemble_fall_hash_ok _ _ _ _ hfin, hwb]
          · rw [runvAssemble_fall_hash_fail _ _ _ _ hfin,
              runvAssemble_fall_hash_fail _ _ _ _ hfin, hwb]
    have hmEq : mainLoop es copv.op ses.tfm ses.hash_tfm (sesBlocksize ses) copv.iovec
        (initialEngineSt ses copv) ses.stat =
        mainLoop es ({ copv with iv := none } : CryptOpv).op
          ({ ses with tfm := some { b with iv := ivb.take b.ivsize } } : Csession).tfm
          ({ ses with tfm := some { b with iv := ivb.take b.ivsize } } : Csession).hash_tfm
          (sesBlocksize { ses with tfm := some { b with iv := ivb.take b.ivsize } })
          ({ copv with iv := none } : CryptOpv).iovec
          (initialEngineSt { ses with tfm := some { b with iv := ivb.take b.ivsize } }
            { copv with iv := none })
          ({ ses with tfm := some { b with iv := ivb.take b.ivsize } } : Csession).stat := by
      rw [hb, hbs, heq]
      exact (mainLoop_iv_congr es copv.op b (ivb.take b.ivsize) ses.hash_tfm
        b.blocksize copv.iovec
        { biv := ivb.take b.ivsize, fed := [], dstOut := [] } ses.stat).symm
    rw [runv_locked_shape es ses copv hop hinit,
      runv_locked_shape es { ses with tfm := some { b with iv := ivb.take b.ivsize } }
        { copv with iv := none } hop hinit, hasm]
    exact congrArg _ hmEq
  · intro hivn hion hhn
    rw [runv_locked_shape es ses copv hop hinit, hion]
    have hm0 : mainLoop es copv.op ses.tfm ses.hash_tfm (sesBlocksize ses) []
        (initialEngineSt ses copv) ses.stat =
        (.fallthrough, initialEngineSt ses copv, ses.stat) := rfl
    rw [hm0, hhn, runvAssemble_fall_none]
    have hwb0 : writebackIV ses (initialEngineSt ses copv).biv = ses := by
      have h1 : (initialEngineSt ses copv).biv = b.iv := by
        simp [initialEngineSt, hb, hivn]
      rw [h1, writebackIV, hb]
      show ({ ses with tfm := some b } : Csession) = ses
      rw [← hb]
    rw [hwb0]
    rfl

def c9ses : Csession :=
  { sid := 7, tfm := some (demoCipher 4), hash_tfm := none, stat := stats0 }

def c9copv : CryptOpv :=
  { op := COP_ENCRYPT, ses := 7, iv := some [9, 8, 7],
    iovec := [{ src := [1, 2, 3, 4], len := 4, op_flags := IOP_CIPHER }] }

theorem c9_iv_primed_or_preserved_witness :
    c9ses.tfm = some (demoCipher 4) ∧ hashInitRet c9ses = 0 ∧
    c9copv.iv = some [9, 8, 7] ∧
    crypto_runv_locked false true c9ses c9copv =
      crypto_runv_locked false true
        { c9ses with tfm := some { demoCipher 4 with iv := [9, 8, 7].take (demoCipher 4).ivsize } }
        { c9copv with iv := none } :=
  ⟨rfl, rfl, rfl,
    (c9_iv_primed_or_preserved false c9ses (demoCipher 4) c9copv rfl (Or.inl rfl) rfl).1
      [9, 8, 7] rfl⟩

-- ===== C6 =====

/-- C6: on a session holding both transforms, with every segment carrying
both the apply-cipher and apply-hash flags, a successful crypto_runv call
computes the digest over plaintext, never ciphertext: under encrypt the mac
is the digest of the source bytes (hash-update runs on each staged chunk
before it is encrypted in place), and under decrypt the mac is the digest of
the bytes written to the destination, i.e. the recovered plaintext
(decryption runs in place before hash-update sees the buffer). -/
theorem c6_digest_over_plaintext (es : Bool) (ses : Csession) (b : BlkCipherTfm)
    (h : HashTfm) (copv : CryptOpv)
    (hb : ses.tfm = some b) (hh : ses.hash_tfm = some h)
    (hflags : ∀ seg ∈ copv.iovec,
      seg.op_flags &&& IOP_CIPHER ≠ 0 ∧ seg.op_flags &&& IOP_HASH ≠ 0)
    (hret : (crypto_runv_locked es true ses copv).ret = 0) :
    (copv.op = COP_ENCRYPT →
      (crypto_runv_locked es true ses copv).macOut =
        some ((h.digest (plainBytes copv.iovec)).take h.digestsize)) ∧
    (copv.op = COP_DECRYPT →
      (crypto_runv_locked es true ses copv).macOut =
        some ((h.digest ((crypto_runv_locked es true ses copv).dstOut)).take
          h.digestsize)) := by
  by_cases hop : copv.op = COP_ENCRYPT ∨ copv.op = COP_DECRYPT
  case neg =>
    rw [runv_locked_invalid es true ses copv (by push_neg at hop; exact hop)] at hret
    norm_num [EINVAL] at hret
  by_cases hinit : hashInitRet ses = 0
  case neg =>
    rw [runv_locked_initfail es ses copv hop hinit] at hret
    exact absurd hret hinit
  rw [runv_locked_shape es ses copv hop hinit] at hret ⊢
  rcases hm : mainLoop es copv.op ses.tfm ses.hash_tfm (sesBlocksize ses) copv.iovec
      (initialEngineSt ses copv) ses.stat with ⟨ex, st1, s1⟩
  rw [hm] at hret
  cases ex with
  | errUnlock e =>
    rw [runvAssemble_errUnlock] at hret
    have he := mainLoop_errUnlock_eq es copv.op ses.tfm ses.hash_tfm (sesBlocksize ses)
      copv.iovec (initialEngineSt ses copv) ses.stat st1 s1 e hm
    rw [he] at hret
    norm_num [EINVAL] at hret
  | errOut e =>
    rw [runvAssemble_errOut] at hret
    exact absurd hret (mainLoop_errOut_ne es copv.op ses.tfm ses.hash_tfm
      (sesBlocksize ses) copv.iovec (initialEngineSt ses copv) ses.stat st1 s1 e hm)
  | fallthrough =>
    rw [hh] at hret ⊢
    by_cases hfin : h.finalRet = 0
    case neg =>
      rw [runvAssemble_fall_hash_fail ses h st1 s1 hfin] at hret
      exact absurd hret hfin
    rw [runvAssemble_fall_hash_ok ses h st1 s1 hfin]
    constructor
    · intro hopE
      rw [hopE, hh] at hm
      have hfed := mainLoop_enc_fed es ses.tfm h (sesBlocksize ses) copv.iovec
        (initialEngineSt ses copv) ses.stat st1 s1
        (fun seg hsm => (hflags seg hsm).2) hm
      have h0 : (initialEngineSt ses copv).fed = [] := rfl
      rw [h0, List.nil_append] at hfed
      rw [hfed]
    · intro hopD
      rw [hopD, hh, hb] at hm
      obtain ⟨d, hdf, hdd⟩ := mainLoop_dec_delta es b h (sesBlocksize ses) copv.iovec
        (initialEngineSt ses copv) ses.stat st1 s1 hflags hm
      have h0f : (initialEngineSt ses copv).fed = [] := rfl
      have h0d : (initialEngineSt ses copv).dstOut = [] := rfl
      rw [h0f, List.nil_append] at hdf
      rw [h0d, List.nil_append] at hdd
      show some ((h.digest st1.fed).take h.digestsize) =
        some ((h.digest st1.dstOut).take h.digestsize)
      rw [hdf, hdd]

def c6ses : Csession :=
  { sid := 5, tfm := some (demoCipher 1), hash_tfm := some demoHash, stat := stats0 }

def c6copv : CryptOpv :=
  { op := COP_ENCRYPT, ses := 5, iv := none,
    iovec := [{ src := [1, 2, 3], len := 3, op_flags := 3 }] }

theorem c6_digest_over_plaintext_witness :
    c6ses.tfm = some (demoCipher 1) ∧ c6ses.hash_tfm = some demoHash ∧
    (∀ seg ∈ c6copv.iovec,
      seg.op_flags &&& IOP_CIPHER ≠ 0 ∧ seg.op_flags &&& IOP_HASH ≠ 0) ∧
    (crypto_runv_locked false true c6ses c6copv).ret = 0 ∧
    (crypto_runv_locked false true c6ses c6copv).macOut =
      some ((demoHash.digest (plainBytes c6copv.iovec)).take demoHash.digestsize) :=
  ⟨rfl, rfl, by decide, by decide,
    (c6_digest_over_plaintext false c6ses (demoCipher 1) demoHash c6copv rfl rfl
      (by decide) (by decide)).1 rfl⟩

end Cryptodev
